import Mathlib

/-!
Verification development for the network-observability console plugin.

Two areas are embedded:

* `src/web/src/utils/port.ts` — `formatPort` and `comparePort`, parameterised
  over the external `getService` lookup from the `port-numbers` package.
* the backend filter-expression parser `Parse` of the `filters` package.  Only
  its tests (`TestParseFilters`, `TestParseCommon`) ship in the sources at
  hand, so the parser itself is modelled from the specification (clause lexer,
  clause builder, group assembler, validator, percent-decoding front end).
-/

set_option maxRecDepth 100000

namespace NetObserv

/-! ## Port utilities (from src/web/src/utils/port.ts) -/

/-- A service record as returned by the `port-numbers` lookup `getService`;
only the `name` field is consumed by `port.ts`. -/
structure Service where
  name : String
deriving DecidableEq, Repr

/-- Embedding of `formatPort` from `port.ts`: when the `getService` lookup
finds a service the result is `service.name (p)` (template literal), else the
decimal rendering `String(p)`. -/
def formatPort (getService : Nat → Option Service) (p : Nat) : String :=
  match getService p with
  | some service => service.name ++ " (" ++ Nat.repr p ++ ")"
  | none => Nat.repr p

/-- Embedding of JavaScript `String.prototype.localeCompare` with the default
collation: 0 on equal strings, negative/positive according to order. -/
def localeCompare (a b : String) : Int :=
  if a = b then 0 else if a < b then -1 else 1

/-- Embedding of `comparePort` from `port.ts`: ports with a known service sort
first (result -1/1 against a service-less port), two known services compare by
`localeCompare` of their `formatPort` strings, two unknown ports by numeric
difference. -/
def comparePort (getService : Nat → Option Service) (p1 p2 : Nat) : Int :=
  match getService p1, getService p2 with
  | some _, some _ => localeCompare (formatPort getService p1) (formatPort getService p2)
  | some _, none => -1
  | none, some _ => 1
  | none, none => (p1 : Int) - (p2 : Int)

/-! ## Filter expression parser (filters package) -/

/-- Clause operator: `Match` (`=`) or `NotMatch` (`!=`). -/
inductive Operator where
  | matchOp : Operator
  | notMatch : Operator
deriving DecidableEq, Repr

/-- One atomic criterion `key<op>value`; the value is kept verbatim. -/
structure Clause where
  key : String
  op : Operator
  value : String
deriving DecidableEq, Repr

/-- Go constructor `NewMatch`. -/
def NewMatch (k v : String) : Clause := ⟨k, Operator.matchOp, v⟩

/-- Go constructor `NewNotMatch`. -/
def NewNotMatch (k v : String) : Clause := ⟨k, Operator.notMatch, v⟩

/-- Ordered AND-combined clauses: one OR-branch. -/
abbrev SingleQuery := List Clause

/-- Ordered OR-combined branches: the whole parsed filter. -/
abbrev FilterGroup := List SingleQuery

/-- Error taxonomy of the parser (spec §7). -/
inductive ParseError where
  | DecodingError : ParseError
  | EmptyClauseError : ParseError
  | MalformedClauseError : ParseError
  | EmptyGroupError : ParseError
deriving DecidableEq, Repr

instance {ε α : Type} [DecidableEq ε] [DecidableEq α] : DecidableEq (Except ε α) := fun a b =>
  match a, b with
  | Except.error e1, Except.error e2 =>
    if h : e1 = e2 then Decidable.isTrue (by rw [h])
    else Decidable.isFalse (fun hh => h (by cases hh; rfl))
  | Except.ok x, Except.ok y =>
    if h : x = y then Decidable.isTrue (by rw [h])
    else Decidable.isFalse (fun hh => h (by cases hh; rfl))
  | Except.error _, Except.ok _ => Decidable.isFalse (fun hh => Except.noConfusion hh)
  | Except.ok _, Except.error _ => Decidable.isFalse (fun hh => Except.noConfusion hh)

/-- Modelled from the spec: hexadecimal digit value, used by percent-decoding
(`url.QueryUnescape` performed by `Parse` before lexing). -/
def hexVal (c : Char) : Option Nat :=
  if '0' ≤ c ∧ c ≤ '9' then some (c.toNat - 48)
  else if 'A' ≤ c ∧ c ≤ 'F' then some (c.toNat - 55)
  else if 'a' ≤ c ∧ c ≤ 'f' then some (c.toNat - 87)
  else none

/-- Modelled from the spec: percent-decoding of the raw query parameter
(`%XX` becomes the coded character, `+` becomes a space), failing on an
invalid escape — the `DecodingError` case of §7. -/
def percentDecode : List Char → Option (List Char)
  | [] => some []
  | c :: rest =>
    if c = '%' then
      match rest with
      | h1 :: h2 :: rest2 =>
        match hexVal h1, hexVal h2 with
        | some a, some b => (percentDecode rest2).map (fun l => Char.ofNat (16 * a + b) :: l)
        | _, _ => none
      | _ => none
    else if c = '+' then (percentDecode rest).map (fun l => ' ' :: l)
    else (percentDecode rest).map (fun l => c :: l)

/-- Prepend a character onto the first token of the first group. -/
def consHead (c : Char) : List (List (List Char)) → List (List (List Char))
  | [] => [[[c]]]
  | [] :: gs => [[c]] :: gs
  | (t :: ts) :: gs => ((c :: t) :: ts) :: gs

/-- Open a fresh (empty) token at the front of the first group. -/
def newTok : List (List (List Char)) → List (List (List Char))
  | [] => [[[]]]
  | g :: gs => ([] :: g) :: gs

/-- Modelled from the spec: the clause lexer (§4.1).  Splits the decoded
character stream into groups of clause tokens: `&` outside a quoted span ends
the current token, `|` outside a quoted span ends the current group, a double
quote toggles the in-quotes state and stays part of the token, every other
character (and any separator inside quotes) extends the current token. -/
def lexChars : List Char → Bool → List (List (List Char))
  | [], _ => [[[]]]
  | c :: rest, inQ =>
    if c = '"' then consHead c (lexChars rest (!inQ))
    else if inQ then consHead c (lexChars rest inQ)
    else if c = '&' then newTok (lexChars rest inQ)
    else if c = '|' then [[]] :: lexChars rest inQ
    else consHead c (lexChars rest inQ)

/-- Modelled from the spec: operator scan for `!=` — returns the text before
and after the first occurrence of the two-character operator. -/
def splitNotMatch : List Char → Option (List Char × List Char)
  | [] => none
  | [_] => none
  | c :: d :: rest =>
    if c = '!' ∧ d = '=' then some ([], rest)
    else
      match splitNotMatch (d :: rest) with
      | some (k, v) => some (c :: k, v)
      | none => none

/-- Modelled from the spec: operator scan for a bare `=` — returns the text
before and after its first occurrence. -/
def splitMatch : List Char → Option (List Char × List Char)
  | [] => none
  | c :: rest =>
    if c = '=' then some ([], rest)
    else
      match splitMatch rest with
      | some (k, v) => some (c :: k, v)
      | none => none

/-- Whitespace for key trimming (space, tab, newline, carriage return). -/
def isSpaceChar (c : Char) : Bool :=
  c = ' ' ∨ c = '\t' ∨ c = '\n' ∨ c = '\r'

/-- Trim whitespace from both ends of a character list. -/
def trimChars (l : List Char) : List Char :=
  ((l.dropWhile isSpaceChar).reverse.dropWhile isSpaceChar).reverse

/-- Modelled from the spec: the clause builder (§4.2).  Checks for the
two-character `!=` before falling back to a bare `=`; the text before the
operator is trimmed to give the key, the text after it is the verbatim value;
fails with `MalformedClauseError` when no operator occurs or the trimmed key
is empty. -/
def buildClause (t : List Char) : Except ParseError Clause :=
  match splitNotMatch t with
  | some (k, v) =>
    let key := trimChars k
    if key = [] then Except.error ParseError.MalformedClauseError
    else Except.ok ⟨String.mk key, Operator.notMatch, String.mk v⟩
  | none =>
    match splitMatch t with
    | some (k, v) =>
      let key := trimChars k
      if key = [] then Except.error ParseError.MalformedClauseError
      else Except.ok ⟨String.mk key, Operator.matchOp, String.mk v⟩
    | none => Except.error ParseError.MalformedClauseError

/-- `List.mapM` specialised to `Except`, written as plain recursion so its
success and failure conditions are easy to reason about. -/
def exMap (f : α → Except ParseError β) : List α → Except ParseError (List β)
  | [] => Except.ok []
  | a :: as =>
    match f a with
    | Except.error e => Except.error e
    | Except.ok b =>
      match exMap f as with
      | Except.error e => Except.error e
      | Except.ok bs => Except.ok (b :: bs)

/-- Modelled from the spec: the group assembler and validator (§4.3/§4.4).
A group that is exactly one empty token came from a bare separator and is an
`EmptyGroupError`; any other empty token (doubled, leading or trailing
separator) is an `EmptyClauseError`; otherwise every token is built into a
clause, failing fast on the first malformed one. -/
def buildGroup (g : List (List Char)) : Except ParseError SingleQuery :=
  if g = [[]] then Except.error ParseError.EmptyGroupError
  else if g.any (fun t => t.isEmpty) then Except.error ParseError.EmptyClauseError
  else exMap buildClause g

/-- Modelled from the spec: the top-level `Parse` operation (§4.5): percent-
decode, lex into groups of clause tokens, assemble each group, all-or-nothing. -/
def parse (raw : String) : Except ParseError FilterGroup :=
  match percentDecode raw.data with
  | none => Except.error ParseError.DecodingError
  | some decoded => exMap buildGroup (lexChars decoded false)

/-- Count of top-level OR separators: `|` seen outside a quoted span. -/
def countTopBars : List Char → Bool → Nat
  | [], _ => 0
  | c :: rest, inQ =>
    if c = '"' then countTopBars rest (!inQ)
    else if inQ then countTopBars rest inQ
    else if c = '&' then countTopBars rest inQ
    else if c = '|' then countTopBars rest inQ + 1
    else countTopBars rest inQ

/-- Re-encode one clause with the same operators (`=` / `!=`). -/
def encodeClauseChars (c : Clause) : List Char :=
  c.key.data ++ (match c.op with
    | Operator.matchOp => ['=']
    | Operator.notMatch => ['!', '=']) ++ c.value.data

/-- Join tokens with a separator character. -/
def joinSep (sep : Char) : List (List Char) → List Char
  | [] => []
  | [t] => t
  | t :: ts => t ++ sep :: joinSep sep ts

/-- Re-encode a FilterGroup with the same separators: `&` inside a group,
`|` between groups. -/
def encode (fg : FilterGroup) : String :=
  String.mk (joinSep '|' (fg.map (fun g => joinSep '&' (g.map encodeClauseChars))))

/-- Scan of a single clause token mirroring the lexer's quote handling:
starting from in-quotes state `q`, returns the final state, or `none` if a
top-level separator (`&` or `|` outside quotes) occurs inside the token. -/
def scanTok : List Char → Bool → Option Bool
  | [], q => some q
  | c :: rest, q =>
    if c = '"' then scanTok rest (!q)
    else if q then scanTok rest q
    else if c = '&' then none
    else if c = '|' then none
    else scanTok rest q

/-- Prepend a whole token text onto the first token of the first group. -/
def appHead (t : List Char) : List (List (List Char)) → List (List (List Char))
  | [] => [[t]]
  | [] :: gs => [t] :: gs
  | (u :: us) :: gs => ((t ++ u) :: us) :: gs

/-- Prepend a nonempty sequence of tokens onto the first group. -/
def prependToks : List (List Char) → List (List (List Char)) → List (List (List Char))
  | [], l => l
  | [t], l => appHead t l
  | t :: ts, l => appHead t (newTok (prependToks ts l))

/-- Character allowed in a grammar-conforming clause key: not an operator or
separator character, not a quote, not percent-coded material, not whitespace. -/
def keyChar (c : Char) : Bool :=
  !(c = '=' ∨ c = '!' ∨ c = '"' ∨ c = '&' ∨ c = '|' ∨ c = '%' ∨ c = '+' ∨ isSpaceChar c)

/-- Character left unchanged by percent-decoding. -/
def plainChar (c : Char) : Bool := !(c = '%' ∨ c = '+')

/-- A clause whose re-encoding `key ++ op ++ value` reparses to itself: the
key is nonempty and grammar-conforming, the value is untouched by decoding,
quote-balanced with separators only inside quotes, and (for a match clause)
free of the two-character operator `!=`. -/
def goodClause (c : Clause) : Prop :=
  c.key.data ≠ [] ∧ (∀ ch ∈ c.key.data, keyChar ch = true) ∧
  (∀ ch ∈ c.value.data, plainChar ch = true) ∧
  scanTok c.value.data false = some false ∧
  (c.op = Operator.matchOp → splitNotMatch c.value.data = none)

instance (c : Clause) : Decidable (goodClause c) := by
  unfold goodClause; infer_instance

/-- A FilterGroup that re-encodes and reparses to itself: nonempty, with
nonempty groups of good clauses. -/
def goodFG (fg : FilterGroup) : Prop :=
  fg ≠ [] ∧ ∀ g ∈ fg, g ≠ [] ∧ ∀ c ∈ g, goodClause c

instance (fg : FilterGroup) : Decidable (goodFG fg) := by
  unfold goodFG; infer_instance

/-! ## Helper lemmas -/

theorem exMap_ok_length {α β : Type} {f : α → Except ParseError β} :
    ∀ {l : List α} {l' : List β}, exMap f l = Except.ok l' → l'.length = l.length := by
  intro l
  induction l with
  | nil => intro l' h; simp only [exMap, Except.ok.injEq] at h; subst h; rfl
  | cons a as ih =>
    intro l' h
    simp only [exMap] at h
    cases hfa : f a with
    | error e => rw [hfa] at h; exact absurd h (by simp)
    | ok b =>
      rw [hfa] at h
      cases hrest : exMap f as with
      | error e => rw [hrest] at h; exact absurd h (by simp)
      | ok bs =>
        rw [hrest] at h
        simp only [Except.ok.injEq] at h
        subst h
        simp [ih hrest]

theorem exMap_ok_mem {α β : Type} {f : α → Except ParseError β} :
    ∀ {l : List α} {l' : List β}, exMap f l = Except.ok l' →
      ∀ b ∈ l', ∃ a ∈ l, f a = Except.ok b := by
  intro l
  induction l with
  | nil =>
    intro l' h b hb
    simp only [exMap, Except.ok.injEq] at h
    subst h
    exact absurd hb (List.not_mem_nil b)
  | cons a as ih =>
    intro l' h b hb
    simp only [exMap] at h
    cases hfa : f a with
    | error e => rw [hfa] at h; exact absurd h (by simp)
    | ok b0 =>
      rw [hfa] at h
      cases hrest : exMap f as with
      | error e => rw [hrest] at h; exact absurd h (by simp)
      | ok bs =>
        rw [hrest] at h
        simp only [Except.ok.injEq] at h
        subst h
        rcases List.mem_cons.1 hb with hb0 | hbs
        · exact ⟨a, List.mem_cons_self a as, hb0 ▸ hfa⟩
        · rcases ih hrest b hbs with ⟨a', ha', hfa'⟩
          exact ⟨a', List.mem_cons_of_mem a ha', hfa'⟩

theorem exMap_ok_forall {α β : Type} {f : α → Except ParseError β} :
    ∀ {l : List α} {l' : List β}, exMap f l = Except.ok l' →
      ∀ a ∈ l, ∃ b, f a = Except.ok b := by
  intro l
  induction l with
  | nil => intro l' _ a ha; exact absurd ha (List.not_mem_nil a)
  | cons a0 as ih =>
    intro l' h a ha
    simp only [exMap] at h
    cases hfa : f a0 with
    | error e => rw [hfa] at h; exact absurd h (by simp)
    | ok b0 =>
      rw [hfa] at h
      cases hrest : exMap f as with
      | error e => rw [hrest] at h; exact absurd h (by simp)
      | ok bs =>
        rcases List.mem_cons.1 ha with rfl | has
        · exact ⟨b0, hfa⟩
        · exact ih hrest a has

theorem exMap_map_ok {α β : Type} {f : α → Except ParseError β} {h : β → α} :
    ∀ {l : List β}, (∀ b ∈ l, f (h b) = Except.ok b) → exMap f (l.map h) = Except.ok l := by
  intro l
  induction l with
  | nil => intro _; rfl
  | cons b bs ih =>
    intro hall
    simp only [List.map_cons, exMap]
    rw [hall b (List.mem_cons_self b bs), ih fun x hx => hall x (List.mem_cons_of_mem b hx)]

theorem dropWhile_all_false {p : Char → Bool} :
    ∀ {l : List Char}, (∀ c ∈ l, p c = false) → l.dropWhile p = l := by
  intro l h
  cases l with
  | nil => rfl
  | cons c t =>
    simp only [List.dropWhile]
    rw [h c (List.mem_cons_self c t)]

theorem trimChars_of_no_space {l : List Char} (h : ∀ c ∈ l, isSpaceChar c = false) :
    trimChars l = l := by
  unfold trimChars
  rw [dropWhile_all_false h]
  rw [dropWhile_all_false fun c hc => h c (List.mem_reverse.1 hc)]
  exact List.reverse_reverse l

theorem toDigitsCore_length_le {b : Nat} :
    ∀ (f n : Nat) (ds : List Char), ds.length ≤ (Nat.toDigitsCore b f n ds).length := by
  intro f
  induction f with
  | zero => intro n ds; simp [Nat.toDigitsCore]
  | succ f ih =>
    intro n ds
    simp only [Nat.toDigitsCore]
    split
    · simp
    · exact Nat.le_trans (by simp) (ih (n / b) (Nat.digitChar (n % b) :: ds))

theorem repr_length_pos (n : Nat) : 0 < (Nat.repr n).length := by
  show 0 < (Nat.toDigits 10 n).asString.length
  have h1 : (Nat.toDigits 10 n).asString.length = (Nat.toDigits 10 n).length := rfl
  rw [h1]
  unfold Nat.toDigits
  simp only [Nat.toDigitsCore]
  split
  · simp
  · calc 0 < (Nat.digitChar (n % 10) :: []).length := by simp
      _ ≤ _ := toDigitsCore_length_le n (n / 10) _

theorem repr_ne_empty (n : Nat) : Nat.repr n ≠ "" := by
  intro h
  have := repr_length_pos n
  rw [h] at this
  exact absurd this (by decide)

theorem lexChars_cons_quote (rest : List Char) (q : Bool) :
    lexChars ('"' :: rest) q = consHead '"' (lexChars rest (!q)) := by
  simp [lexChars]

theorem lexChars_cons_inq {c : Char} (rest : List Char) (h1 : c ≠ '"') :
    lexChars (c :: rest) true = consHead c (lexChars rest true) := by
  simp [lexChars, h1]

theorem lexChars_cons_amp (rest : List Char) :
    lexChars ('&' :: rest) false = newTok (lexChars rest false) := by
  simp [lexChars]

theorem lexChars_cons_bar (rest : List Char) :
    lexChars ('|' :: rest) false = [[]] :: lexChars rest false := by
  simp [lexChars]

theorem lexChars_cons_other {c : Char} (rest : List Char)
    (h1 : c ≠ '"') (h2 : c ≠ '&') (h3 : c ≠ '|') :
    lexChars (c :: rest) false = consHead c (lexChars rest false) := by
  simp [lexChars, h1, h2, h3]

theorem countTopBars_cons_quote (rest : List Char) (q : Bool) :
    countTopBars ('"' :: rest) q = countTopBars rest (!q) := by
  simp [countTopBars]

theorem countTopBars_cons_inq {c : Char} (rest : List Char) (h1 : c ≠ '"') :
    countTopBars (c :: rest) true = countTopBars rest true := by
  simp [countTopBars, h1]

theorem countTopBars_cons_amp (rest : List Char) :
    countTopBars ('&' :: rest) false = countTopBars rest false := by
  simp [countTopBars]

theorem countTopBars_cons_bar (rest : List Char) :
    countTopBars ('|' :: rest) false = countTopBars rest false + 1 := by
  simp [countTopBars]

theorem countTopBars_cons_other {c : Char} (rest : List Char)
    (h1 : c ≠ '"') (h2 : c ≠ '&') (h3 : c ≠ '|') :
    countTopBars (c :: rest) false = countTopBars rest false := by
  simp [countTopBars, h1, h2, h3]

theorem scanTok_cons_quote (rest : List Char) (q : Bool) :
    scanTok ('"' :: rest) q = scanTok rest (!q) := by
  simp [scanTok]

theorem scanTok_cons_inq {c : Char} (rest : List Char) (h1 : c ≠ '"') :
    scanTok (c :: rest) true = scanTok rest true := by
  simp [scanTok, h1]

theorem scanTok_cons_other {c : Char} (rest : List Char)
    (h1 : c ≠ '"') (h2 : c ≠ '&') (h3 : c ≠ '|') :
    scanTok (c :: rest) false = scanTok rest false := by
  simp [scanTok, h1, h2, h3]

theorem scanTok_cons_amp (rest : List Char) :
    scanTok ('&' :: rest) false = none := by
  simp [scanTok]

theorem scanTok_cons_bar (rest : List Char) :
    scanTok ('|' :: rest) false = none := by
  simp [scanTok]

theorem consHead_shape (c : Char) :
    ∀ l : List (List (List Char)), ∃ u us gs, consHead c l = (u :: us) :: gs := by
  intro l
  match l with
  | [] => exact ⟨[c], [], [], rfl⟩
  | [] :: gs => exact ⟨[c], [], gs, rfl⟩
  | (t :: ts) :: gs => exact ⟨c :: t, ts, gs, rfl⟩

theorem newTok_shape :
    ∀ l : List (List (List Char)), ∃ u us gs, newTok l = (u :: us) :: gs := by
  intro l
  match l with
  | [] => exact ⟨[], [], [], rfl⟩
  | g :: gs => exact ⟨[], g, gs, rfl⟩

theorem lexChars_shape :
    ∀ (cs : List Char) (q : Bool), ∃ u us gs, lexChars cs q = (u :: us) :: gs := by
  intro cs
  induction cs with
  | nil => intro q; exact ⟨[], [], [], rfl⟩
  | cons c rest ih =>
    intro q
    by_cases h1 : c = '"'
    · subst h1
      rw [lexChars_cons_quote]
      exact consHead_shape _ _
    · cases q with
      | true =>
        rw [lexChars_cons_inq rest h1]
        exact consHead_shape _ _
      | false =>
        by_cases h2 : c = '&'
        · subst h2
          rw [lexChars_cons_amp]
          exact newTok_shape _
        · by_cases h3 : c = '|'
          · subst h3
            rw [lexChars_cons_bar]
            exact ⟨[], [], lexChars rest false, rfl⟩
          · rw [lexChars_cons_other rest h1 h2 h3]
            exact consHead_shape _ _

theorem lexChars_ne_nil (cs : List Char) (q : Bool) : lexChars cs q ≠ [] := by
  rcases lexChars_shape cs q with ⟨u, us, gs, h⟩
  rw [h]
  exact List.cons_ne_nil _ _

theorem consHead_pres_ne {c : Char} {l : List (List (List Char))}
    (h : ∀ g ∈ l, g ≠ []) : ∀ g ∈ consHead c l, g ≠ [] := by
  match l with
  | [] => intro g hg; simp only [consHead, List.mem_singleton] at hg; subst hg; simp
  | [] :: gs =>
    intro g hg
    rcases List.mem_cons.1 hg with rfl | hgs
    · simp
    · exact h g (List.mem_cons_of_mem _ hgs)
  | (t :: ts) :: gs =>
    intro g hg
    rcases List.mem_cons.1 hg with rfl | hgs
    · simp
    · exact h g (List.mem_cons_of_mem _ hgs)

theorem newTok_pres_ne {l : List (List (List Char))}
    (h : ∀ g ∈ l, g ≠ []) : ∀ g ∈ newTok l, g ≠ [] := by
  match l with
  | [] => intro g hg; simp only [newTok, List.mem_singleton] at hg; subst hg; simp
  | g0 :: gs =>
    intro g hg
    rcases List.mem_cons.1 hg with rfl | hgs
    · simp
    · exact h g (List.mem_cons_of_mem _ hgs)

theorem lexChars_groups_ne_nil :
    ∀ (cs : List Char) (q : Bool), ∀ g ∈ lexChars cs q, g ≠ [] := by
  intro cs
  induction cs with
  | nil =>
    intro q g hg
    simp only [lexChars, List.mem_singleton] at hg
    subst hg
    simp
  | cons c rest ih =>
    intro q
    by_cases h1 : c = '"'
    · subst h1
      rw [lexChars_cons_quote]
      exact consHead_pres_ne (ih (!q))
    · cases q with
      | true =>
        rw [lexChars_cons_inq rest h1]
        exact consHead_pres_ne (ih true)
      | false =>
        by_cases h2 : c = '&'
        · subst h2
          rw [lexChars_cons_amp]
          exact newTok_pres_ne (ih false)
        · by_cases h3 : c = '|'
          · subst h3
            rw [lexChars_cons_bar]
            intro g hg
            rcases List.mem_cons.1 hg with rfl | hgs
            · simp
            · exact ih false g hgs
          · rw [lexChars_cons_other rest h1 h2 h3]
            exact consHead_pres_ne (ih false)

theorem consHead_length {c : Char} {l : List (List (List Char))} (h : l ≠ []) :
    (consHead c l).length = l.length := by
  match l with
  | [] => exact absurd rfl h
  | [] :: gs => rfl
  | (t :: ts) :: gs => rfl

theorem newTok_length {l : List (List (List Char))} (h : l ≠ []) :
    (newTok l).length = l.length := by
  match l with
  | [] => exact absurd rfl h
  | g :: gs => rfl

theorem lexChars_length :
    ∀ (cs : List Char) (q : Bool), (lexChars cs q).length = countTopBars cs q + 1 := by
  intro cs
  induction cs with
  | nil => intro q; rfl
  | cons c rest ih =>
    intro q
    by_cases h1 : c = '"'
    · subst h1
      rw [lexChars_cons_quote, countTopBars_cons_quote]
      rw [consHead_length (lexChars_ne_nil rest (!q))]
      exact ih (!q)
    · cases q with
      | true =>
        rw [lexChars_cons_inq rest h1, countTopBars_cons_inq rest h1]
        rw [consHead_length (lexChars_ne_nil rest true)]
        exact ih true
      | false =>
        by_cases h2 : c = '&'
        · subst h2
          rw [lexChars_cons_amp, countTopBars_cons_amp]
          rw [newTok_length (lexChars_ne_nil rest false)]
          exact ih false
        · by_cases h3 : c = '|'
          · subst h3
            rw [lexChars_cons_bar, countTopBars_cons_bar, List.length_cons, ih false]
          · rw [lexChars_cons_other rest h1 h2 h3, countTopBars_cons_other rest h1 h2 h3]
            rw [consHead_length (lexChars_ne_nil rest false)]
            exact ih false

theorem splitMatch_append {v : List Char} :
    ∀ {k : List Char}, (∀ c ∈ k, c ≠ '=') → splitMatch (k ++ '=' :: v) = some (k, v) := by
  intro k
  induction k with
  | nil => intro _; simp [splitMatch]
  | cons c k' ih =>
    intro h
    have hc : c ≠ '=' := h c (List.mem_cons_self c k')
    simp only [List.cons_append, splitMatch, if_neg hc]
    rw [List.append_eq, ih fun x hx => h x (List.mem_cons_of_mem c hx)]

theorem splitNotMatch_cons_ne {c : Char} (h : c ≠ '!') :
    ∀ l : List Char,
      splitNotMatch (c :: l) = (splitNotMatch l).map (fun p => (c :: p.1, p.2)) := by
  intro l
  match l with
  | [] => simp [splitNotMatch]
  | d :: rest =>
    have hcd : ¬(c = '!' ∧ d = '=') := fun hh => h hh.1
    simp only [splitNotMatch, if_neg hcd]
    cases hs : splitNotMatch (d :: rest) with
    | none => simp
    | some p =>
      obtain ⟨k, v⟩ := p
      simp

theorem splitNotMatch_append {l : List Char} :
    ∀ {k : List Char}, (∀ c ∈ k, c ≠ '!') →
      splitNotMatch (k ++ l) = (splitNotMatch l).map (fun p => (k ++ p.1, p.2)) := by
  intro k
  induction k with
  | nil =>
    intro _
    simp only [List.nil_append]
    cases splitNotMatch l with
    | none => simp
    | some p => simp
  | cons c k' ih =>
    intro h
    have hc : c ≠ '!' := h c (List.mem_cons_self c k')
    rw [List.cons_append, splitNotMatch_cons_ne hc,
      ih fun x hx => h x (List.mem_cons_of_mem c hx)]
    cases splitNotMatch l with
    | none => simp
    | some p => simp

theorem splitNotMatch_bang {k v : List Char} (h : ∀ c ∈ k, c ≠ '!') :
    splitNotMatch (k ++ '!' :: '=' :: v) = some (k, v) := by
  rw [splitNotMatch_append h]
  simp [splitNotMatch]

theorem splitNotMatch_eq_none {k v : List Char} (h : ∀ c ∈ k, c ≠ '!')
    (hv : splitNotMatch v = none) : splitNotMatch (k ++ '=' :: v) = none := by
  rw [splitNotMatch_append h, splitNotMatch_cons_ne (by decide) v, hv]
  rfl

theorem scanTok_append {b : List Char} :
    ∀ {a : List Char} {q q1 : Bool}, scanTok a q = some q1 →
      scanTok (a ++ b) q = scanTok b q1 := by
  intro a
  induction a with
  | nil =>
    intro q q1 h
    simp only [scanTok, Option.some.injEq] at h
    subst h
    rfl
  | cons c rest ih =>
    intro q q1 h
    by_cases h1 : c = '"'
    · subst h1
      rw [scanTok_cons_quote] at h
      rw [List.cons_append, scanTok_cons_quote]
      exact ih h
    · cases q with
      | true =>
        rw [scanTok_cons_inq rest h1] at h
        rw [List.cons_append, scanTok_cons_inq _ h1]
        exact ih h
      | false =>
        by_cases h2 : c = '&'
        · subst h2
          rw [scanTok_cons_amp] at h
          exact absurd h (by simp)
        · by_cases h3 : c = '|'
          · subst h3
            rw [scanTok_cons_bar] at h
            exact absurd h (by simp)
          · rw [scanTok_cons_other rest h1 h2 h3] at h
            rw [List.cons_append, scanTok_cons_other _ h1 h2 h3]
            exact ih h

theorem scanTok_all_plain :
    ∀ {t : List Char}, (∀ c ∈ t, c ≠ '"' ∧ c ≠ '&' ∧ c ≠ '|') →
      ∀ q, scanTok t q = some q := by
  intro t
  induction t with
  | nil => intro _ q; rfl
  | cons c rest ih =>
    intro h q
    have hc := h c (List.mem_cons_self c rest)
    have hrest := fun x hx => h x (List.mem_cons_of_mem c hx)
    cases q with
    | true =>
      rw [scanTok_cons_inq rest hc.1]
      exact ih hrest true
    | false =>
      rw [scanTok_cons_other rest hc.1 hc.2.1 hc.2.2]
      exact ih hrest false

theorem consHead_appHead (c : Char) (t : List Char) :
    ∀ l : List (List (List Char)), consHead c (appHead t l) = appHead (c :: t) l := by
  intro l
  match l with
  | [] => rfl
  | [] :: gs => rfl
  | (u :: us) :: gs => simp [appHead, consHead]

theorem lexChars_append {cs : List Char} :
    ∀ {t : List Char} {q q1 : Bool}, scanTok t q = some q1 →
      lexChars (t ++ cs) q = appHead t (lexChars cs q1) := by
  intro t
  induction t with
  | nil =>
    intro q q1 h
    simp only [scanTok, Option.some.injEq] at h
    subst h
    rcases lexChars_shape cs q with ⟨u, us, gs, hl⟩
    rw [List.nil_append, hl]
    rfl
  | cons c rest ih =>
    intro q q1 h
    by_cases h1 : c = '"'
    · subst h1
      rw [scanTok_cons_quote] at h
      rw [List.cons_append, lexChars_cons_quote, ih h, consHead_appHead]
    · cases q with
      | true =>
        rw [scanTok_cons_inq rest h1] at h
        rw [List.cons_append, lexChars_cons_inq _ h1, ih h, consHead_appHead]
      | false =>
        by_cases h2 : c = '&'
        · subst h2
          rw [scanTok_cons_amp] at h
          exact absurd h (by simp)
        · by_cases h3 : c = '|'
          · subst h3
            rw [scanTok_cons_bar] at h
            exact absurd h (by simp)
          · rw [scanTok_cons_other rest h1 h2 h3] at h
            rw [List.cons_append, lexChars_cons_other _ h1 h2 h3, ih h, consHead_appHead]

theorem prependToks_cons (t : List Char) :
    ∀ (ts : List (List Char)) (us : List (List Char)) (gs : List (List (List Char))),
      prependToks (t :: ts) (([] :: us) :: gs) = ((t :: ts) ++ us) :: gs := by
  intro ts
  induction ts generalizing t with
  | nil => intro us gs; simp [prependToks, appHead]
  | cons t2 ts' ih =>
    intro us gs
    show appHead t (newTok (prependToks (t2 :: ts') (([] :: us) :: gs))) = _
    rw [ih t2 us gs]
    simp [newTok, appHead]

theorem lexChars_joinAmp :
    ∀ {ts : List (List Char)} {cs : List Char}, ts ≠ [] →
      (∀ t ∈ ts, scanTok t false = some false) →
      lexChars (joinSep '&' ts ++ cs) false = prependToks ts (lexChars cs false) := by
  intro ts
  induction ts with
  | nil => intro cs h; exact absurd rfl h
  | cons t ts' ih =>
    intro cs _ hall
    match ts' with
    | [] =>
      show lexChars (t ++ cs) false = prependToks [t] (lexChars cs false)
      rw [lexChars_append (hall t (List.mem_cons_self t []))]
      rfl
    | t2 :: ts'' =>
      show lexChars ((t ++ '&' :: joinSep '&' (t2 :: ts'')) ++ cs) false = _
      rw [List.append_assoc, List.cons_append,
        lexChars_append (hall t (List.mem_cons_self t _)), lexChars_cons_amp,
        ih (List.cons_ne_nil t2 ts'') fun x hx => hall x (List.mem_cons_of_mem t hx)]
      rfl

theorem lexChars_joinBar :
    ∀ {gss : List (List (List Char))}, gss ≠ [] →
      (∀ g ∈ gss, g ≠ [] ∧ ∀ t ∈ g, scanTok t false = some false) →
      lexChars (joinSep '|' (gss.map (joinSep '&'))) false = gss := by
  intro gss
  induction gss with
  | nil => intro h; exact absurd rfl h
  | cons g gss' ih =>
    intro _ hall
    have hg := hall g (List.mem_cons_self g gss')
    match gss' with
    | [] =>
      show lexChars (joinSep '&' g) false = [g]
      rw [← List.append_nil (joinSep '&' g), lexChars_joinAmp hg.1 hg.2]
      match g, hg.1 with
      | t :: ts, _ =>
        show prependToks (t :: ts) (([] :: []) :: []) = [t :: ts]
        rw [prependToks_cons]
        simp
    | g2 :: gss'' =>
      show lexChars ((joinSep '&' g ++ '|' :: joinSep '|' ((g2 :: gss'').map (joinSep '&')))) false
        = g :: g2 :: gss''
      rw [lexChars_joinAmp hg.1 hg.2, lexChars_cons_bar,
        ih (List.cons_ne_nil g2 gss'') fun x hx => hall x (List.mem_cons_of_mem g hx)]
      match g, hg.1 with
      | t :: ts, _ =>
        show prependToks (t :: ts) (([] :: []) :: (g2 :: gss'')) = (t :: ts) :: g2 :: gss''
        rw [prependToks_cons]
        simp

theorem mem_joinSep {sep : Char} :
    ∀ {ts : List (List Char)} {c : Char}, c ∈ joinSep sep ts →
      c = sep ∨ ∃ t ∈ ts, c ∈ t := by
  intro ts
  induction ts with
  | nil => intro c h; exact absurd h (List.not_mem_nil c)
  | cons t ts' ih =>
    intro c h
    match ts' with
    | [] =>
      exact Or.inr ⟨t, List.mem_cons_self t [], h⟩
    | t2 :: ts'' =>
      rcases List.mem_append.1 h with h1 | h2
      · exact Or.inr ⟨t, List.mem_cons_self t _, h1⟩
      · rcases List.mem_cons.1 h2 with rfl | h3
        · exact Or.inl rfl
        · rcases ih h3 with h4 | ⟨t', ht', hc⟩
          · exact Or.inl h4
          · exact Or.inr ⟨t', List.mem_cons_of_mem t ht', hc⟩

theorem percentDecode_cons_plain {c : Char} (rest : List Char)
    (h1 : c ≠ '%') (h2 : c ≠ '+') :
    percentDecode (c :: rest) = (percentDecode rest).map (fun l => c :: l) := by
  rw [percentDecode.eq_def]
  simp [h1, h2]

theorem percentDecode_plain :
    ∀ {l : List Char}, (∀ c ∈ l, plainChar c = true) → percentDecode l = some l := by
  intro l
  induction l with
  | nil => intro _; rfl
  | cons c rest ih =>
    intro h
    have hc := h c (List.mem_cons_self c rest)
    simp only [plainChar, Bool.not_eq_true', decide_eq_false_iff_not] at hc
    push_neg at hc
    rw [percentDecode_cons_plain rest hc.1 hc.2,
      ih fun x hx => h x (List.mem_cons_of_mem c hx)]
    rfl

theorem keyChar_spec {ch : Char} (h : keyChar ch = true) :
    ch ≠ '=' ∧ ch ≠ '!' ∧ ch ≠ '"' ∧ ch ≠ '&' ∧ ch ≠ '|' ∧ ch ≠ '%' ∧ ch ≠ '+' ∧
      isSpaceChar ch = false := by
  simp only [keyChar, Bool.not_eq_true', decide_eq_false_iff_not] at h
  push_neg at h
  refine ⟨h.1, h.2.1, h.2.2.1, h.2.2.2.1, h.2.2.2.2.1, h.2.2.2.2.2.1, h.2.2.2.2.2.2.1, ?_⟩
  simpa using h.2.2.2.2.2.2.2

theorem opChars_spec {op : Operator} {ch : Char}
    (h : ch ∈ (match op with
      | Operator.matchOp => ['=']
      | Operator.notMatch => ['!', '='])) :
    ch = '=' ∨ ch = '!' := by
  cases op with
  | matchOp => simp only [List.mem_singleton] at h; exact Or.inl h
  | notMatch =>
    rcases List.mem_cons.1 h with rfl | h2
    · exact Or.inr rfl
    · simp only [List.mem_singleton] at h2; exact Or.inl h2

theorem plainChar_of_ne {ch : Char} (h1 : ch ≠ '%') (h2 : ch ≠ '+') :
    plainChar ch = true := by
  simp [plainChar, h1, h2]

theorem encodeClauseChars_ne_nil {c : Clause} (h : goodClause c) :
    encodeClauseChars c ≠ [] := by
  obtain ⟨hk_ne, _, _, _, _⟩ := h
  unfold encodeClauseChars
  cases hd : c.key.data with
  | nil => exact absurd hd hk_ne
  | cons x xs => simp

theorem scanTok_encodeClause {c : Clause} (h : goodClause c) :
    scanTok (encodeClauseChars c) false = some false := by
  obtain ⟨hk_ne, hkey, hval, hscan, hop⟩ := h
  unfold encodeClauseChars
  rw [List.append_assoc]
  rw [scanTok_append (b := _) (scanTok_all_plain (fun ch hch =>
    ⟨(keyChar_spec (hkey ch hch)).2.2.1, (keyChar_spec (hkey ch hch)).2.2.2.1,
      (keyChar_spec (hkey ch hch)).2.2.2.2.1⟩) false)]
  rw [scanTok_append (b := _) (scanTok_all_plain (fun ch hch => by
    rcases opChars_spec hch with rfl | rfl
    · exact ⟨by decide, by decide, by decide⟩
    · exact ⟨by decide, by decide, by decide⟩) false)]
  exact hscan

theorem buildClause_encode {c : Clause} (h : goodClause c) :
    buildClause (encodeClauseChars c) = Except.ok c := by
  obtain ⟨hk_ne, hkey, hval, hscan, hop⟩ := h
  have hnospace : ∀ ch ∈ c.key.data, isSpaceChar ch = false :=
    fun ch hch => (keyChar_spec (hkey ch hch)).2.2.2.2.2.2.2
  have hnobang : ∀ ch ∈ c.key.data, ch ≠ '!' :=
    fun ch hch => (keyChar_spec (hkey ch hch)).2.1
  have hnoeq : ∀ ch ∈ c.key.data, ch ≠ '=' :=
    fun ch hch => (keyChar_spec (hkey ch hch)).1
  obtain ⟨key, op, value⟩ := c
  cases op with
  | matchOp =>
    have henc : encodeClauseChars ⟨key, Operator.matchOp, value⟩
        = key.data ++ '=' :: value.data := by
      simp [encodeClauseChars]
    rw [henc]
    unfold buildClause
    rw [splitNotMatch_eq_none hnobang (hop rfl), splitMatch_append hnoeq]
    simp only [trimChars_of_no_space hnospace, if_neg hk_ne]
  | notMatch =>
    have henc : encodeClauseChars ⟨key, Operator.notMatch, value⟩
        = key.data ++ '!' :: '=' :: value.data := by
      simp [encodeClauseChars]
    rw [henc]
    unfold buildClause
    rw [splitNotMatch_bang hnobang]
    simp only [trimChars_of_no_space hnospace, if_neg hk_ne]

theorem buildGroup_encode {g : SingleQuery} (_hne : g ≠ [])
    (hall : ∀ c ∈ g, goodClause c) :
    buildGroup (g.map encodeClauseChars) = Except.ok g := by
  have hnn : ∀ t ∈ g.map encodeClauseChars, t ≠ [] := by
    intro t ht
    rcases List.mem_map.1 ht with ⟨c, hc, rfl⟩
    exact encodeClauseChars_ne_nil (hall c hc)
  unfold buildGroup
  rw [if_neg (fun hcontra => hnn [] (by rw [hcontra]; exact List.mem_singleton.2 rfl) rfl)]
  rw [if_neg (fun hcontra => by
    rcases List.any_eq_true.1 hcontra with ⟨t, ht, hemp⟩
    exact hnn t ht (List.isEmpty_iff.1 hemp))]
  exact exMap_map_ok fun c hc => buildClause_encode (hall c hc)

theorem parse_encode_good {fg : FilterGroup} (h : goodFG fg) :
    parse (encode fg) = Except.ok fg := by
  obtain ⟨hne, hall⟩ := h
  have hplainClause : ∀ c ∈ fg.flatten, ∀ ch ∈ encodeClauseChars c, plainChar ch = true := by
    intro c hc ch hch
    rcases List.mem_flatten.1 hc with ⟨g, hg, hcg⟩
    obtain ⟨_, hkey, hval, _, _⟩ := (hall g hg).2 c hcg
    unfold encodeClauseChars at hch
    rcases List.mem_append.1 hch with hch1 | hch2
    · rcases List.mem_append.1 hch1 with hk | hoc
      · have hs := keyChar_spec (hkey ch hk)
        exact plainChar_of_ne hs.2.2.2.2.2.1 hs.2.2.2.2.2.2.1
      · rcases opChars_spec hoc with rfl | rfl
        · decide
        · decide
    · exact hval ch hch2
  have hplain : ∀ ch ∈ joinSep '|' (fg.map (fun g => joinSep '&' (g.map encodeClauseChars))),
      plainChar ch = true := by
    intro ch hch
    rcases mem_joinSep hch with rfl | ⟨s, hs, hchs⟩
    · decide
    · rcases List.mem_map.1 hs with ⟨g, hg, rfl⟩
      rcases mem_joinSep hchs with rfl | ⟨t, ht, hcht⟩
      · decide
      · rcases List.mem_map.1 ht with ⟨c, hc, rfl⟩
        exact hplainClause c (List.mem_flatten.2 ⟨g, hg, hc⟩) ch hcht
  have hmapmap : fg.map (fun g => joinSep '&' (g.map encodeClauseChars))
      = (fg.map (fun g => g.map encodeClauseChars)).map (joinSep '&') := by
    rw [List.map_map]
    rfl
  have hlex : lexChars (joinSep '|' (fg.map (fun g => joinSep '&' (g.map encodeClauseChars))))
      false = fg.map (fun g => g.map encodeClauseChars) := by
    rw [hmapmap]
    refine lexChars_joinBar (fun hcontra => hne (List.map_eq_nil_iff.1 hcontra)) ?_
    intro g' hg'
    rcases List.mem_map.1 hg' with ⟨g, hg, rfl⟩
    refine ⟨fun hcontra => (hall g hg).1 (List.map_eq_nil_iff.1 hcontra), ?_⟩
    intro t ht
    rcases List.mem_map.1 ht with ⟨c, hc, rfl⟩
    exact scanTok_encodeClause ((hall g hg).2 c hc)
  have hstep : parse (encode fg)
      = match percentDecode
          (joinSep '|' (fg.map (fun g => joinSep '&' (g.map encodeClauseChars)))) with
        | none => Except.error ParseError.DecodingError
        | some decoded => exMap buildGroup (lexChars decoded false) := rfl
  rw [hstep, percentDecode_plain hplain]
  show exMap buildGroup (lexChars _ false) = Except.ok fg
  rw [hlex]
  exact exMap_map_ok fun g hg => buildGroup_encode (hall g hg).1 (hall g hg).2

theorem buildClause_eq_notMatch {t k v : List Char} (hp : splitNotMatch t = some (k, v)) :
    buildClause t
      = if trimChars k = [] then Except.error ParseError.MalformedClauseError
        else Except.ok ⟨String.mk (trimChars k), Operator.notMatch, String.mk v⟩ := by
  unfold buildClause
  rw [hp]

theorem buildClause_eq_match {t k v : List Char} (hs : splitNotMatch t = none)
    (hm : splitMatch t = some (k, v)) :
    buildClause t
      = if trimChars k = [] then Except.error ParseError.MalformedClauseError
        else Except.ok ⟨String.mk (trimChars k), Operator.matchOp, String.mk v⟩ := by
  unfold buildClause
  rw [hs, hm]

theorem buildClause_eq_err {t : List Char} (hs : splitNotMatch t = none)
    (hm : splitMatch t = none) :
    buildClause t = Except.error ParseError.MalformedClauseError := by
  unfold buildClause
  rw [hs, hm]

theorem buildClause_key_ne {t : List Char} {c : Clause} (h : buildClause t = Except.ok c) :
    c.key ≠ "" := by
  cases hs : splitNotMatch t with
  | some p =>
    obtain ⟨k, v⟩ := p
    rw [buildClause_eq_notMatch hs] at h
    by_cases hk : trimChars k = []
    · rw [if_pos hk] at h
      exact absurd h (by simp)
    · rw [if_neg hk] at h
      simp only [Except.ok.injEq] at h
      subst h
      intro hcontra
      exact hk (by simpa using congrArg String.data hcontra)
  | none =>
    cases hm : splitMatch t with
    | some p =>
      obtain ⟨k, v⟩ := p
      rw [buildClause_eq_match hs hm] at h
      by_cases hk : trimChars k = []
      · rw [if_pos hk] at h
        exact absurd h (by simp)
      · rw [if_neg hk] at h
        simp only [Except.ok.injEq] at h
        subst h
        intro hcontra
        exact hk (by simpa using congrArg String.data hcontra)
    | none =>
      rw [buildClause_eq_err hs hm] at h
      exact absurd h (by simp)

theorem buildClause_notMatch {t : List Char} {p : List Char × List Char}
    (hp : splitNotMatch t = some p) {c : Clause} (hc : buildClause t = Except.ok c) :
    c.op = Operator.notMatch := by
  obtain ⟨k, v⟩ := p
  rw [buildClause_eq_notMatch hp] at hc
  by_cases hk : trimChars k = []
  · rw [if_pos hk] at hc
    exact absurd hc (by simp)
  · rw [if_neg hk] at hc
    simp only [Except.ok.injEq] at hc
    subst hc
    rfl

theorem parse_ok_struct {s : String} {fg : FilterGroup} (h : parse s = Except.ok fg) :
    ∀ g ∈ fg, g ≠ [] ∧ ∀ c ∈ g, c.key ≠ "" := by
  unfold parse at h
  cases hd : percentDecode s.data with
  | none =>
    rw [hd] at h
    exact absurd h (by simp)
  | some d =>
    rw [hd] at h
    intro g hg
    rcases exMap_ok_mem h g hg with ⟨gt, hgt, hbuild⟩
    unfold buildGroup at hbuild
    by_cases h1 : gt = [[]]
    · rw [if_pos h1] at hbuild
      exact absurd hbuild (by simp)
    · rw [if_neg h1] at hbuild
      by_cases h2 : gt.any (fun t => t.isEmpty) = true
      · rw [if_pos h2] at hbuild
        exact absurd hbuild (by simp)
      · rw [if_neg h2] at hbuild
        refine ⟨?_, ?_⟩
        · intro hgnil
          subst hgnil
          have hlen := exMap_ok_length hbuild
          have hgtne := lexChars_groups_ne_nil d false gt hgt
          simp only [List.length_nil] at hlen
          exact hgtne (List.length_eq_zero.1 hlen.symm)
        · intro c hc
          rcases exMap_ok_mem hbuild c hc with ⟨t, _, hbc⟩
          exact buildClause_key_ne hbc

theorem parse_ok_length {s : String} {d : List Char} {fg : FilterGroup}
    (hd : percentDecode s.data = some d) (h : parse s = Except.ok fg) :
    fg.length = countTopBars d false + 1 := by
  unfold parse at h
  rw [hd] at h
  rw [exMap_ok_length h, lexChars_length]

theorem parse_error_of_malformed {s : String} {d : List Char}
    (hd : percentDecode s.data = some d) {g : List (List Char)}
    (hg : g ∈ lexChars d false) {t : List Char} (ht : t ∈ g)
    (h1 : splitNotMatch t = none) (h2 : splitMatch t = none) :
    ∃ e, parse s = Except.error e := by
  cases hp : parse s with
  | error e => exact ⟨e, rfl⟩
  | ok fg =>
    exfalso
    unfold parse at hp
    rw [hd] at hp
    rcases exMap_ok_forall hp g hg with ⟨sq, hsq⟩
    unfold buildGroup at hsq
    by_cases hA : g = [[]]
    · rw [if_pos hA] at hsq
      exact absurd hsq (by simp)
    · rw [if_neg hA] at hsq
      by_cases hB : g.any (fun t => t.isEmpty) = true
      · rw [if_pos hB] at hsq
        exact absurd hsq (by simp)
      · rw [if_neg hB] at hsq
        rcases exMap_ok_forall hsq t ht with ⟨c, hc⟩
        rw [buildClause_eq_err h1 h2] at hc
        exact absurd hc (by simp)

theorem exMap_ok_getq {α β : Type} {f : α → Except ParseError β} :
    ∀ {l : List α} {l' : List β}, exMap f l = Except.ok l' →
      ∀ (i : Nat) (a : α), l[i]? = some a →
        ∃ b, l'[i]? = some b ∧ f a = Except.ok b := by
  intro l
  induction l with
  | nil =>
    intro l' _ i a ha
    exact absurd ha (by simp)
  | cons a0 as ih =>
    intro l' h i a ha
    simp only [exMap] at h
    cases hfa : f a0 with
    | error e => rw [hfa] at h; exact absurd h (by simp)
    | ok b0 =>
      rw [hfa] at h
      cases hrest : exMap f as with
      | error e => rw [hrest] at h; exact absurd h (by simp)
      | ok bs =>
        rw [hrest] at h
        simp only [Except.ok.injEq] at h
        subst h
        cases i with
        | zero =>
          simp only [List.getElem?_cons_zero, Option.some.injEq] at ha
          subst ha
          exact ⟨b0, by simp, hfa⟩
        | succ n =>
          simp only [List.getElem?_cons_succ] at ha
          rcases ih hrest n a ha with ⟨b, hb, hfb⟩
          exact ⟨b, by simpa using hb, hfb⟩

theorem buildGroup_ok {g : List (List Char)} {sq : SingleQuery}
    (h : buildGroup g = Except.ok sq) : exMap buildClause g = Except.ok sq := by
  unfold buildGroup at h
  by_cases h1 : g = [[]]
  · rw [if_pos h1] at h
    exact absurd h (by simp)
  · rw [if_neg h1] at h
    by_cases h2 : g.any (fun t => t.isEmpty) = true
    · rw [if_pos h2] at h
      exact absurd h (by simp)
    · rw [if_neg h2] at h
      exact h

/-! ## Claim theorems -/

/-- C1: the operator scan recognises the two-character `!=` before falling
back to a bare `=`: a clause token containing `!=` can only build a not-match
clause, and `srcns=a|srcns!=a&dstns=a` parses to exactly two groups,
`[[Match(srcns,a)], [NotMatch(srcns,a), Match(dstns,a)]]`, never to a match
clause on key `srcns!`. -/
theorem claim_C1 :
    (∀ (t : List Char) (p : List Char × List Char), splitNotMatch t = some p →
      ∀ c : Clause, buildClause t = Except.ok c → c.op = Operator.notMatch) ∧
    parse "srcns=a|srcns!=a&dstns=a"
      = Except.ok [[NewMatch "srcns" "a"],
          [NewNotMatch "srcns" "a", NewMatch "dstns" "a"]] := by
  refine ⟨?_, by decide⟩
  intro t p hp c hc
  exact buildClause_notMatch hp hc

theorem claim_C1_witness :
    splitNotMatch ("srcns!=a".data) = some ("srcns".data, "a".data) ∧
    buildClause ("srcns!=a".data) = Except.ok (NewNotMatch "srcns" "a") ∧
    (NewNotMatch "srcns" "a").op = Operator.notMatch :=
  ⟨by decide, by decide,
    claim_C1.1 ("srcns!=a".data) ("srcns".data, "a".data) (by decide)
      (NewNotMatch "srcns" "a") (by decide)⟩

/-- C2: repeated keys inside one group are kept as separate AND'd clauses in
input order, never merged or deduplicated: for every successful parse, the
i-th SingleQuery has exactly as many clauses as the i-th lexed group has
clause tokens, and its j-th clause is built from the j-th token — so every
occurrence of a repeated key stays its own clause at its own position — and
the four-clause input with `SrcK8S_Name` twice parses to one group of four
clauses with both occurrences retained. -/
theorem claim_C2 :
    (∀ (s : String) (d : List Char) (fg : FilterGroup),
      percentDecode s.data = some d → parse s = Except.ok fg →
      ∀ (i : Nat) (g : List (List Char)), (lexChars d false)[i]? = some g →
        ∃ sq, fg[i]? = some sq ∧ sq.length = g.length ∧
          ∀ (j : Nat) (t : List Char), g[j]? = some t →
            ∃ c, sq[j]? = some c ∧ buildClause t = Except.ok c) ∧
    parse "SrcK8S_Type=\"Pod\"&SrcK8S_Namespace=\"default\"&SrcK8S_Name=\"test\"&SrcK8S_Name=\"nomatch\""
      = Except.ok [[NewMatch "SrcK8S_Type" "\"Pod\"",
          NewMatch "SrcK8S_Namespace" "\"default\"",
          NewMatch "SrcK8S_Name" "\"test\"",
          NewMatch "SrcK8S_Name" "\"nomatch\""]] := by
  refine ⟨?_, by decide⟩
  intro s d fg hd h i g hg
  unfold parse at h
  rw [hd] at h
  rcases exMap_ok_getq h i g hg with ⟨sq, hsq, hbuild⟩
  have hex := buildGroup_ok hbuild
  refine ⟨sq, hsq, exMap_ok_length hex, ?_⟩
  intro j t ht
  exact exMap_ok_getq hex j t ht

theorem claim_C2_witness :
    ∃ sq, ([[NewMatch "k" "a", NewMatch "k" "b"]] : FilterGroup)[0]? = some sq ∧
      sq.length = (["k=a".data, "k=b".data] : List (List Char)).length ∧
      ∀ (j : Nat) (t : List Char),
        (["k=a".data, "k=b".data] : List (List Char))[j]? = some t →
        ∃ c, sq[j]? = some c ∧ buildClause t = Except.ok c :=
  claim_C2.1 "k=a&k=b" ("k=a&k=b".data) [[NewMatch "k" "a", NewMatch "k" "b"]]
    (by decide) (by decide) 0 ["k=a".data, "k=b".data] (by decide)

/-- C3: every top-level `|` outside quotes starts a new group, so a
successful parse has (number of top-level bars) + 1 groups; the three-clause
plus one-clause example parses to two groups of sizes 3 and 1 in order. -/
theorem claim_C3 :
    (∀ (s : String) (d : List Char) (fg : FilterGroup),
      percentDecode s.data = some d → parse s = Except.ok fg →
      fg.length = countTopBars d false + 1) ∧
    parse "SrcK8S_Type=\"Pod\"&SrcK8S_Namespace=\"default\"&SrcK8S_Name=\"test\"|SrcPort=8080"
      = Except.ok [[NewMatch "SrcK8S_Type" "\"Pod\"",
          NewMatch "SrcK8S_Namespace" "\"default\"",
          NewMatch "SrcK8S_Name" "\"test\""],
          [NewMatch "SrcPort" "8080"]] := by
  refine ⟨?_, by decide⟩
  intro s d fg hd h
  exact parse_ok_length hd h

theorem claim_C3_witness :
    percentDecode ("a=1|b=2".data) = some ("a=1|b=2".data) ∧
    parse "a=1|b=2" = Except.ok [[NewMatch "a" "1"], [NewMatch "b" "2"]] ∧
    ([[NewMatch "a" "1"], [NewMatch "b" "2"]] : FilterGroup).length
      = countTopBars ("a=1|b=2".data) false + 1 :=
  ⟨by decide, by decide,
    claim_C3.1 "a=1|b=2" ("a=1|b=2".data)
      [[NewMatch "a" "1"], [NewMatch "b" "2"]] (by decide) (by decide)⟩

/-- C4: the value of every well-formed clause is the text after the operator
taken verbatim: whenever the operator scan splits a token into the text `k`
before and `v` after the operator (the `!=` scan first, then the bare `=`
scan), the built clause's value is exactly `v`, unmodified — quotes and
internal commas included — and concretely quotes are kept (the value of
`SrcK8S_Type="Pod"` is the five-character `"Pod"`) and an unquoted comma is
opaque text inside a single value (`foo=a,b` has the one value `a,b`). -/
theorem claim_C4 :
    (∀ (t k v : List Char), splitNotMatch t = some (k, v) → trimChars k ≠ [] →
      buildClause t
        = Except.ok ⟨String.mk (trimChars k), Operator.notMatch, String.mk v⟩) ∧
    (∀ (t k v : List Char), splitNotMatch t = none → splitMatch t = some (k, v) →
      trimChars k ≠ [] →
      buildClause t
        = Except.ok ⟨String.mk (trimChars k), Operator.matchOp, String.mk v⟩) ∧
    parse "foo=a,b&bar=c|baz=d"
      = Except.ok [[NewMatch "foo" "a,b", NewMatch "bar" "c"],
          [NewMatch "baz" "d"]] ∧
    parse "SrcK8S_Type=\"Pod\"&SrcK8S_Namespace=\"default\"&SrcK8S_Name=\"test\"&SrcPort=8080"
      = Except.ok [[NewMatch "SrcK8S_Type" "\"Pod\"",
          NewMatch "SrcK8S_Namespace" "\"default\"",
          NewMatch "SrcK8S_Name" "\"test\"",
          NewMatch "SrcPort" "8080"]] := by
  refine ⟨?_, ?_, by decide, by decide⟩
  · intro t k v hp hk
    rw [buildClause_eq_notMatch hp, if_neg hk]
  · intro t k v hs hm hk
    rw [buildClause_eq_match hs hm, if_neg hk]

theorem claim_C4_witness :
    buildClause ("dstns!=\"x,y\"".data)
      = Except.ok ⟨String.mk (trimChars ("dstns".data)), Operator.notMatch,
          String.mk ("\"x,y\"".data)⟩ ∧
    buildClause ("foo=a,b".data)
      = Except.ok ⟨String.mk (trimChars ("foo".data)), Operator.matchOp,
          String.mk ("a,b".data)⟩ :=
  ⟨claim_C4.1 ("dstns!=\"x,y\"".data) ("dstns".data) ("\"x,y\"".data)
      (by decide) (by decide),
   claim_C4.2.1 ("foo=a,b".data) ("foo".data) ("a,b".data)
      (by decide) (by decide) (by decide)⟩

/-- C5: parsing is all-or-nothing: `foobar&bar=c` yields
`MalformedClauseError`, and any input whose lexed token stream contains a
token with no operator produces an error and never a FilterGroup. -/
theorem claim_C5 :
    parse "foobar&bar=c" = Except.error ParseError.MalformedClauseError ∧
    (∀ (s : String) (d : List Char), percentDecode s.data = some d →
      ∀ g ∈ lexChars d false, ∀ t ∈ g,
        splitNotMatch t = none → splitMatch t = none →
        (∃ e, parse s = Except.error e) ∧ ∀ fg, parse s ≠ Except.ok fg) := by
  refine ⟨by decide, ?_⟩
  intro s d hd g hg t ht h1 h2
  rcases parse_error_of_malformed hd hg ht h1 h2 with ⟨e, he⟩
  refine ⟨⟨e, he⟩, fun fg hok => ?_⟩
  rw [hok] at he
  exact absurd he (by simp)

theorem claim_C5_witness :
    (∃ e, parse "foobar&bar=c" = Except.error e) ∧
    ∀ fg, parse "foobar&bar=c" ≠ Except.ok fg :=
  claim_C5.2 "foobar&bar=c" ("foobar&bar=c".data) (by decide)
    ["foobar".data, "bar=c".data] (by decide) ("foobar".data) (by decide)
    (by decide) (by decide)

/-- C6: every successful parse yields only non-empty SingleQueries whose
clauses all have non-empty keys; bare, doubled, leading or trailing
separators are rejected with a validation error rather than skipped. -/
theorem claim_C6 :
    (∀ (s : String) (fg : FilterGroup), parse s = Except.ok fg →
      ∀ g ∈ fg, g ≠ [] ∧ ∀ c ∈ g, c.key ≠ "") ∧
    parse "|" = Except.error ParseError.EmptyGroupError ∧
    parse "a=1&&b=2" = Except.error ParseError.EmptyClauseError ∧
    parse "&a=1" = Except.error ParseError.EmptyClauseError ∧
    parse "a=1&" = Except.error ParseError.EmptyClauseError ∧
    parse "a=1|" = Except.error ParseError.EmptyGroupError := by
  refine ⟨?_, by decide, by decide, by decide, by decide, by decide⟩
  intro s fg h
  exact parse_ok_struct h

theorem claim_C6_witness :
    parse "a=1" = Except.ok [[NewMatch "a" "1"]] ∧
    ([NewMatch "a" "1"] ≠ [] ∧ ∀ c ∈ [NewMatch "a" "1"], c.key ≠ "") :=
  ⟨by decide,
    claim_C6.1 "a=1" [[NewMatch "a" "1"]] (by decide)
      [NewMatch "a" "1"] (by decide)⟩

theorem claim_C7_counterexample :
    parse "a! =b" = Except.ok [[NewMatch "a!" "b"]] ∧
    encode [[NewMatch "a!" "b"]] = "a!=b" ∧
    parse (encode [[NewMatch "a!" "b"]]) = Except.ok [[NewNotMatch "a" "b"]] ∧
    ([[NewNotMatch "a" "b"]] : FilterGroup) ≠ [[NewMatch "a!" "b"]] := by
  exact ⟨by decide, by decide, by decide, by decide⟩

/-- C7 (amended): re-encoding with the same separators and reparsing returns
the original FilterGroup for every well-formed FilterGroup — non-empty, with
non-empty SingleQueries, grammar-conforming keys (non-empty, free of
operator/separator/quote/escape/whitespace characters) and values that are
quote-balanced, hold separators only inside quotes, contain no
percent-escape material, and (for match clauses) no `!=`.  The unrestricted
claim fails: `a! =b` parses to key `a!`, whose re-encoding `a!=b` reparses
as a not-match clause. -/
theorem claim_C7 (fg : FilterGroup) (h : goodFG fg) :
    parse (encode fg) = Except.ok fg :=
  parse_encode_good h

theorem claim_C7_witness :
    goodFG [[NewMatch "srcns" "a"], [NewNotMatch "srcns" "a", NewMatch "dstns" "a"]] ∧
    parse (encode [[NewMatch "srcns" "a"], [NewNotMatch "srcns" "a", NewMatch "dstns" "a"]])
      = Except.ok [[NewMatch "srcns" "a"], [NewNotMatch "srcns" "a", NewMatch "dstns" "a"]] :=
  ⟨by decide, claim_C7 _ (by decide)⟩

/-- C8: parse is deterministic and pure — in this embedding it is a function
of the input string alone, so identical inputs give identical results. -/
theorem claim_C8 : ∀ s1 s2 : String, s1 = s2 → parse s1 = parse s2 :=
  fun _ _ h => congrArg parse h

theorem claim_C8_witness :
    parse "srcns=a|srcns!=a&dstns=a" = parse "srcns=a|srcns!=a&dstns=a" :=
  claim_C8 "srcns=a|srcns!=a&dstns=a" "srcns=a|srcns!=a&dstns=a" rfl

/-- C9: formatPort returns `name (p)` when the service lookup succeeds and
the plain decimal string otherwise; the result is total and never empty. -/
theorem claim_C9 (getService : Nat → Option Service) (p : Nat) :
    (∀ s, getService p = some s →
      formatPort getService p = s.name ++ " (" ++ Nat.repr p ++ ")") ∧
    (getService p = none → formatPort getService p = Nat.repr p) ∧
    formatPort getService p ≠ "" := by
  refine ⟨?_, ?_, ?_⟩
  · intro s hs
    unfold formatPort
    rw [hs]
  · intro hn
    unfold formatPort
    rw [hn]
  · unfold formatPort
    cases hs : getService p with
    | none => exact repr_ne_empty p
    | some s =>
      intro hcontra
      have hlen := congrArg String.length hcontra
      simp only [String.length_append] at hlen
      have e1 : (" (" : String).length = 2 := rfl
      have e0 : ("" : String).length = 0 := rfl
      rw [e1, e0] at hlen
      omega

theorem claim_C9_witness :
    formatPort (fun p => if p = 80 then some (Service.mk "http") else none) 80
      = (Service.mk "http").name ++ " (" ++ Nat.repr 80 ++ ")" ∧
    formatPort (fun p => if p = 80 then some (Service.mk "http") else none) 3
      = Nat.repr 3 ∧
    formatPort (fun p => if p = 80 then some (Service.mk "http") else none) 3 ≠ "" :=
  ⟨(claim_C9 (fun p => if p = 80 then some (Service.mk "http") else none) 80).1
      (Service.mk "http") (by decide),
   (claim_C9 (fun p => if p = 80 then some (Service.mk "http") else none) 3).2.1
      (by decide),
   (claim_C9 (fun p => if p = 80 then some (Service.mk "http") else none) 3).2.2⟩

/-- C10: comparePort sorts every known-service port before every unknown
one (-1/1), compares two unknown ports by numeric difference and two known
ports by localeCompare of their formatPort strings, and is reflexive with
value 0. -/
theorem claim_C10 (getService : Nat → Option Service) :
    (∀ p1 p2, (getService p1).isSome → getService p2 = none →
      comparePort getService p1 p2 = -1) ∧
    (∀ p1 p2, getService p1 = none → (getService p2).isSome →
      comparePort getService p1 p2 = 1) ∧
    (∀ p1 p2, getService p1 = none → getService p2 = none →
      comparePort getService p1 p2 = (p1 : Int) - (p2 : Int)) ∧
    (∀ p1 p2 s1 s2, getService p1 = some s1 → getService p2 = some s2 →
      comparePort getService p1 p2
        = localeCompare (formatPort getService p1) (formatPort getService p2)) ∧
    (∀ p, comparePort getService p p = 0) := by
  refine ⟨?_, ?_, ?_, ?_, ?_⟩
  · intro p1 p2 h1 h2
    obtain ⟨s1, hs1⟩ := Option.isSome_iff_exists.1 h1
    unfold comparePort
    rw [hs1, h2]
  · intro p1 p2 h1 h2
    obtain ⟨s2, hs2⟩ := Option.isSome_iff_exists.1 h2
    unfold comparePort
    rw [h1, hs2]
  · intro p1 p2 h1 h2
    unfold comparePort
    rw [h1, h2]
  · intro p1 p2 s1 s2 h1 h2
    unfold comparePort
    rw [h1, h2]
  · intro p
    unfold comparePort
    cases hs : getService p with
    | none => simp
    | some s => simp [localeCompare]

theorem claim_C10_witness :
    comparePort (fun p => if p = 80 then some (Service.mk "http") else none) 80 3 = -1 ∧
    comparePort (fun p => if p = 80 then some (Service.mk "http") else none) 3 80 = 1 ∧
    comparePort (fun p => if p = 80 then some (Service.mk "http") else none) 3 4
      = (3 : Int) - (4 : Int) ∧
    comparePort (fun p => if p = 80 then some (Service.mk "http") else none) 80 80
      = localeCompare
          (formatPort (fun p => if p = 80 then some (Service.mk "http") else none) 80)
          (formatPort (fun p => if p = 80 then some (Service.mk "http") else none) 80) ∧
    comparePort (fun p => if p = 80 then some (Service.mk "http") else none) 7 7 = 0 :=
  ⟨(claim_C10 (fun p => if p = 80 then some (Service.mk "http") else none)).1
      80 3 (by decide) (by decide),
   (claim_C10 (fun p => if p = 80 then some (Service.mk "http") else none)).2.1
      3 80 (by decide) (by decide),
   (claim_C10 (fun p => if p = 80 then some (Service.mk "http") else none)).2.2.1
      3 4 (by decide) (by decide),
   (claim_C10 (fun p => if p = 80 then some (Service.mk "http") else none)).2.2.2.1
      80 80 (Service.mk "http") (Service.mk "http") (by decide) (by decide),
   (claim_C10 (fun p => if p = 80 then some (Service.mk "http") else none)).2.2.2.2 7⟩

end NetObserv
